import Mathlib

set_option maxRecDepth 10000

/-!
Verification of the SQLite recovery core (scripts/sqlite_recovery.py).

The Python source is shallowly embedded: byte buffers become `List Nat`
(each element a byte value 0..255), Python's `(value, next_offset)` pairs
become `Option _ × Nat`, and the one effectful pass `analyze_database`
becomes a pure function into `Except Unit Report`, where `Except.error`
marks the places where the Python code would raise `struct.error`
(a `struct.unpack` applied to a slice of the wrong length).
-/

/-- Python slice data[i:j] for a list of bytes. -/
def pySlice (data : List Nat) (i j : Nat) : List Nat :=
  (data.drop i).take (j - i)

/-- Byte access data[i]; every use in the embedded code is bounds-guarded,
matching the Python source, so the default value is never observed. -/
def byteAt (data : List Nat) (i : Nat) : Nat :=
  data.getD i 0

/-- Loop body of read_varint: index i runs from 0 to 8, fuel is 9 - i.
The fuel-0 result mirrors the return after the for-loop in the source
(unreachable from fuel 9, as in Python). -/
def rvGo (data : List Nat) (offset : Nat) : Nat → Nat → Nat → Option Nat × Nat
  | _, value, 0 => (some value, offset + 9)
  | i, value, fuel + 1 =>
    if data.length ≤ offset + i then (none, offset)
    else if i = 8 then
      (some ((value <<< 8) ||| byteAt data (offset + i)), offset + 9)
    else if byteAt data (offset + i) &&& 0x80 = 0 then
      (some ((value <<< 7) ||| (byteAt data (offset + i) &&& 0x7f)), offset + i + 1)
    else
      rvGo data offset (i + 1) ((value <<< 7) ||| (byteAt data (offset + i) &&& 0x7f)) fuel

/-- read_varint(data, offset) from the source: up to 9 bytes, 7 data bits
per byte with a continuation high bit, ninth byte contributes all 8 bits. -/
def read_varint (data : List Nat) (offset : Nat) : Option Nat × Nat :=
  rvGo data offset 0 0 9

/-- Decoded column values. `struct.unpack` results are represented
injectively: the float branch keeps the 8 raw big-endian bytes as one
number (the IEEE-754 bit pattern), and the text branch keeps the sliced
bytes (the UTF-8 / latin-1 decoding in the source never fails and is
injective on the byte ranges compared in this file). -/
inductive Value where
  | int (i : Int)
  | float (bits : Nat)
  | blob (bs : List Nat)
  | text (bs : List Nat)
deriving DecidableEq

/-- Big-endian accumulation loop from the source's 48-bit branch:
for b in bytes_val: value = (value << 8) | b. -/
def beBytes (data : List Nat) (offset n : Nat) : Nat :=
  (pySlice data offset (offset + n)).foldl (fun acc b => (acc <<< 8) ||| b) 0

/-- Big-endian 24-bit read written exactly as in the source's 24-bit
branch: (b0 << 16) | (b1 << 8) | b2. -/
def be3 (data : List Nat) (offset : Nat) : Nat :=
  (byteAt data offset <<< 16) ||| (byteAt data (offset + 1) <<< 8) ||| byteAt data (offset + 2)

/-- struct.unpack of a big-endian signed integer of w bytes
(formats >b, >h, >i, >q): two's complement interpretation. -/
def unpackSigned (data : List Nat) (offset w : Nat) : Int :=
  if 2 ^ (8 * w - 1) ≤ beBytes data offset w then
    (beBytes data offset w : Int) - 2 ^ (8 * w)
  else (beBytes data offset w : Int)

/-- decode_serial_type(serial_type, data, offset) from the source. -/
def decode_serial_type (serial_type : Nat) (data : List Nat) (offset : Nat) :
    Option Value × Nat :=
  if serial_type = 0 then (none, offset)
  else if serial_type = 1 then
    if data.length < offset + 1 then (none, offset)
    else (some (Value.int (unpackSigned data offset 1)), offset + 1)
  else if serial_type = 2 then
    if data.length < offset + 2 then (none, offset)
    else (some (Value.int (unpackSigned data offset 2)), offset + 2)
  else if serial_type = 3 then
    if data.length < offset + 3 then (none, offset)
    else
      (some (Value.int (if be3 data offset &&& 0x800000 ≠ 0 then
        (be3 data offset : Int) - 0x1000000 else (be3 data offset : Int))), offset + 3)
  else if serial_type = 4 then
    if data.length < offset + 4 then (none, offset)
    else (some (Value.int (unpackSigned data offset 4)), offset + 4)
  else if serial_type = 5 then
    if data.length < offset + 6 then (none, offset)
    else
      (some (Value.int (if beBytes data offset 6 &&& 0x800000000000 ≠ 0 then
        (beBytes data offset 6 : Int) - 0x1000000000000 else (beBytes data offset 6 : Int))),
       offset + 6)
  else if serial_type = 6 then
    if data.length < offset + 8 then (none, offset)
    else (some (Value.int (unpackSigned data offset 8)), offset + 8)
  else if serial_type = 7 then
    if data.length < offset + 8 then (none, offset)
    else (some (Value.float (beBytes data offset 8)), offset + 8)
  else if serial_type = 8 then (some (Value.int 0), offset)
  else if serial_type = 9 then (some (Value.int 1), offset)
  else if 12 ≤ serial_type ∧ serial_type % 2 = 0 then
    if data.length < offset + (serial_type - 12) / 2 then (none, offset)
    else (some (Value.blob (pySlice data offset (offset + (serial_type - 12) / 2))),
          offset + (serial_type - 12) / 2)
  else if 13 ≤ serial_type ∧ serial_type % 2 = 1 then
    if data.length < offset + (serial_type - 13) / 2 then (none, offset)
    else (some (Value.text (pySlice data offset (offset + (serial_type - 13) / 2))),
          offset + (serial_type - 13) / 2)
  else (none, offset)

/-- Declared byte widths of the fixed-width serial types 1..7, as they
appear in the bounds checks of the source's branches. -/
def fixedWidth : Nat → Nat
  | 1 => 1
  | 2 => 2
  | 3 => 3
  | 4 => 4
  | 5 => 6
  | 6 => 8
  | 7 => 8
  | _ => 0

/-- Serial-type reading loop of parse_cell, with fuel headerEnd - current.
Each successful read advances current by at least one byte
(read_varint_progress), so the loop always exits through one of its two
source conditions (current at or past headerEnd, or a failed read)
before the fuel runs out; at fuel 0 current is at or past headerEnd and
the result coincides with the source's loop exit. -/
def rstGo (data : List Nat) (headerEnd : Nat) : Nat → Nat → List Nat
  | _, 0 => []
  | current, fuel + 1 =>
    if current < headerEnd then
      match read_varint data current with
      | (none, _) => []
      | (some st, current2) => st :: rstGo data headerEnd current2 fuel
    else []

/-- Serial-type reading loop of parse_cell: decode varints from current
until it reaches or passes headerEnd, stopping early on a failed read
and keeping the list collected so far. -/
def readSerialTypes (data : List Nat) (headerEnd : Nat) (current : Nat) : List Nat :=
  rstGo data headerEnd current (headerEnd - current)

/-- Column loop of parse_cell: one decode_serial_type call per declared
serial type, threading the body offset returned by each call. -/
def decodeColumns (data : List Nat) : Nat → List Nat → List (Option Value)
  | _, [] => []
  | offset, st :: rest =>
    match decode_serial_type st data offset with
    | (v, offset2) => v :: decodeColumns data offset2 rest

/-- One parsed table-leaf cell: the row id and the ordered column list. -/
structure Cell where
  row_id : Nat
  columns : List (Option Value)
deriving DecidableEq

/-- parse_cell(data, offset) from the source: payload_size, row_id and
header_size varints, header_end = pos + header_size where pos is the
offset at which the header_size varint was read, then serial types and
column values. -/
def parse_cell (data : List Nat) (offset : Nat) : Option Cell :=
  match read_varint data offset with
  | (none, _) => none
  | (some _payload_size, pos) =>
    match read_varint data pos with
    | (none, _) => none
    | (some row_id, pos2) =>
      match read_varint data pos2 with
      | (none, _) => none
      | (some header_size, header_start) =>
        some { row_id := row_id,
               columns := decodeColumns data (pos2 + header_size)
                 (readSerialTypes data (pos2 + header_size) header_start) }

/-- First six bytes of the magic header checked by analyze_database
(the source compares data[:6] with the byte literal spelling SQLite). -/
def sqliteMagic : List Nat := [83, 81, 76, 105, 116, 101]

/-- struct.unpack of a big-endian unsigned 16-bit value from the slice
data[i:i+2]; raises struct.error (here: Except.error) unless the slice
has exactly 2 bytes, exactly as struct.unpack does. -/
def unpackU16 (data : List Nat) (i : Nat) : Except Unit Nat :=
  match pySlice data i (i + 2) with
  | [a, b] => Except.ok (a * 256 + b)
  | _ => Except.error ()

/-- What one run of analyze_database computes and reports: header
verdict, declared page size, page-header offset, page-type byte, declared
cell count, the printed cell-pointer entries (offset and validity), and
the results of the parse_cell calls the analyzer actually makes. -/
structure Report where
  headerPresent : Bool
  page_size : Option Nat
  header_offset : Nat
  page_type : Option Nat
  num_cells : Option Nat
  cell_pointers : List (Nat × Bool)
  parsed_cells : List (Option Cell)
deriving DecidableEq

/-- Cell-pointer printing loop of analyze_database: for each of the first
min(num_cells, 20) indices, if the 2-byte pointer slot is in bounds, read
it and record whether the pointer itself is in bounds. -/
def cellPointerEntries (data : List Nat) (ho n : Nat) : List (Nat × Bool) :=
  (List.range n).filterMap (fun i =>
    if ho + 8 + i * 2 + 2 ≤ data.length then
      match unpackU16 data (ho + 8 + i * 2) with
      | Except.ok ptr => some (ptr, decide (ptr < data.length))
      | Except.error _ => none
    else none)

/-- analyze_database(filepath) from the source, applied to the byte
buffer read from the file. Except.error marks a raised struct.error:
the page-size read data[16:18], the cell-count read
data[ho+3:ho+5] and the first-pointer read data[ho+8:ho+10] are
not bounds-guarded in the source, unlike the pointer-loop reads. -/
def analyze_database (data : List Nat) : Except Unit Report :=
  let headerPresent := decide (data.take 6 = sqliteMagic)
  let psRes : Except Unit (Option Nat) :=
    if headerPresent then
      match unpackU16 data 16 with
      | Except.ok ps => Except.ok (some ps)
      | Except.error e => Except.error e
    else Except.ok none
  match psRes with
  | Except.error e => Except.error e
  | Except.ok page_size =>
    let ho := if headerPresent then 100 else 0
    let page_type := if ho < data.length then some (byteAt data ho) else none
    if page_type = some 0x0d then
      match unpackU16 data (ho + 3) with
      | Except.error e => Except.error e
      | Except.ok num_cells =>
        let ptrs := cellPointerEntries data ho (min num_cells 20)
        if 0 < num_cells then
          match unpackU16 data (ho + 8) with
          | Except.error e => Except.error e
          | Except.ok first_ptr =>
            Except.ok { headerPresent := headerPresent, page_size := page_size,
                        header_offset := ho, page_type := page_type,
                        num_cells := some num_cells, cell_pointers := ptrs,
                        parsed_cells :=
                          if first_ptr < data.length then [parse_cell data first_ptr]
                          else [] }
        else
          Except.ok { headerPresent := headerPresent, page_size := page_size,
                      header_offset := ho, page_type := page_type,
                      num_cells := some num_cells, cell_pointers := ptrs,
                      parsed_cells := [] }
    else
      Except.ok { headerPresent := headerPresent, page_size := page_size,
                  header_offset := ho, page_type := page_type,
                  num_cells := none, cell_pointers := [], parsed_cells := [] }

/-- Synthetic leaf-table page: page-type byte 0x0d, declared cell count
2, pointer array [16, 32], and two well-formed cells at offsets 16 and
32, each with one integer column and one 3-byte text column (row id 1
with values 42 and a 3-character text, row id 2 with values 99 and a
different 3-character text). -/
def syntheticPage : List Nat :=
  [13, 0, 0, 0, 2, 0, 0, 0, 0, 16, 0, 32, 0, 0, 0, 0] ++
  [7, 1, 3, 1, 19, 42, 104, 105, 33] ++ [0, 0, 0, 0, 0, 0, 0] ++
  [7, 2, 3, 1, 19, 99, 97, 98, 99]

/-- Variant of parse_cell following the claim's words for comparison
with the source: identical except that the record-header end is computed
as header_start + header_size, where header_start is the offset
immediately after the header_size varint (the source instead uses the
offset at which the header_size varint begins). -/
def parse_cell_claimC1 (data : List Nat) (offset : Nat) : Option Cell :=
  match read_varint data offset with
  | (none, _) => none
  | (some _payload_size, pos) =>
    match read_varint data pos with
    | (none, _) => none
    | (some row_id, pos2) =>
      match read_varint data pos2 with
      | (none, _) => none
      | (some header_size, header_start) =>
        some { row_id := row_id,
               columns := decodeColumns data (header_start + header_size)
                 (readSerialTypes data (header_start + header_size) header_start) }

/-- Declared byte width of a serial type, per the data model: 0 for
NULL and the integer constants, the fixed widths for codes 1..7,
(code - 12) / 2 for even codes at least 12, (code - 13) / 2 for odd
codes at least 13, and 0 for the invalid codes 10 and 11. -/
def serialTypeWidth (st : Nat) : Nat :=
  if st ≤ 7 then fixedWidth st
  else if st = 8 ∨ st = 9 then 0
  else if 12 ≤ st ∧ st % 2 = 0 then (st - 12) / 2
  else if 13 ≤ st then (st - 13) / 2
  else 0

/-- Variant of the column loop following the claim's words for
comparison with the source: on a failed column decode the slot becomes
none and the body offset is advanced by the declared width of the failed
column's serial type before the next column is attempted (the source
instead continues at the offset returned by the failed decode, which is
unchanged). -/
def decodeColumnsClaimC2 (data : List Nat) : Nat → List Nat → List (Option Value)
  | _, [] => []
  | offset, st :: rest =>
    match decode_serial_type st data offset with
    | (some v, offset2) => some v :: decodeColumnsClaimC2 data offset2 rest
    | (none, _) => none :: decodeColumnsClaimC2 data (offset + serialTypeWidth st) rest

/-- Modelled from the spec: the repository has no varint encoder (only
the decoder read_varint is in the source), so the encoding scheme of
section 3 is modelled here. Byte count of the encoding of v: the least
number of 7-bit groups that hold v, capped at 8, with 9 bytes for
values of 57 bits or more. -/
def varintLen (v : Nat) : Nat :=
  if v < 2 ^ 7 then 1
  else if v < 2 ^ 14 then 2
  else if v < 2 ^ 21 then 3
  else if v < 2 ^ 28 then 4
  else if v < 2 ^ 35 then 5
  else if v < 2 ^ 42 then 6
  else if v < 2 ^ 49 then 7
  else if v < 2 ^ 56 then 8
  else 9

/-- Modelled from the spec: n-byte encoding of the low 7n bits of v in
big-endian 7-bit groups, the high (continuation) bit set on every byte
except the last. -/
def encode7 : Nat → Nat → List Nat
  | 0, _ => []
  | 1, v => [v % 128]
  | n + 2, v => (v / 2 ^ (7 * (n + 1)) % 128 + 128) :: encode7 (n + 1) v

/-- Modelled from the spec: n continuation bytes carrying the low 7n
bits of w in big-endian 7-bit groups, the high bit set on every byte. -/
def contBytes : Nat → Nat → List Nat
  | 0, _ => []
  | n + 1, w => (w / 2 ^ (7 * n) % 128 + 128) :: contBytes n w

/-- Modelled from the spec: the varint encoder. Values below 2^56 use
the minimal number of 7-bit groups with a continuation bit on all but
the last byte; larger values use 8 continuation bytes carrying the high
56 bits followed by a ninth byte carrying all 8 low bits. -/
def encodeVarint (v : Nat) : List Nat :=
  if v < 2 ^ 56 then encode7 (varintLen v) v
  else contBytes 8 (v / 256) ++ [v % 256]

/-- Reference big-endian reading of the n bytes at offset, used to
state the signed-interpretation claims. -/
def beVal (data : List Nat) (offset n : Nat) : Nat :=
  (pySlice data offset (offset + n)).foldl (fun acc b => acc * 256 + b) 0

/-- On success, read_varint strictly advances the offset. -/
theorem rvGo_progress (data : List Nat) (offset : Nat) :
    ∀ fuel i acc v p, rvGo data offset i acc fuel = (some v, p) → offset < p := by
  intro fuel
  induction fuel with
  | zero =>
    intro i acc v p h
    simp only [rvGo, Prod.mk.injEq] at h
    omega
  | succ f ih =>
    intro i acc v p h
    simp only [rvGo] at h
    split at h
    · simp at h
    · split at h
      · simp only [Prod.mk.injEq] at h
        omega
      · split at h
        · simp only [Prod.mk.injEq] at h
          omega
        · exact ih _ _ _ _ h

/-- On success, read_varint strictly advances the offset. -/
theorem read_varint_progress (data : List Nat) (offset : Nat) {v p : Nat}
    (h : read_varint data offset = (some v, p)) : offset < p :=
  rvGo_progress data offset 9 0 0 v p h

/-- On failure, read_varint reports next_offset = offset. -/
theorem rvGo_none_snd (data : List Nat) (offset : Nat) :
    ∀ fuel i acc p, rvGo data offset i acc fuel = (none, p) → p = offset := by
  intro fuel
  induction fuel with
  | zero =>
    intro i acc p h
    simp only [rvGo, Prod.mk.injEq] at h
    exact absurd h.1 (by simp)
  | succ f ih =>
    intro i acc p h
    simp only [rvGo] at h
    split at h
    · simp only [Prod.mk.injEq] at h
      omega
    · split at h
      · simp at h
      · split at h
        · simp at h
        · exact ih _ _ _ h

/-- On failure, read_varint reports next_offset = offset. -/
theorem read_varint_none_snd (data : List Nat) (offset : Nat) {p : Nat}
    (h : read_varint data offset = (none, p)) : p = offset :=
  rvGo_none_snd data offset 9 0 0 p h

example : encodeVarint 5 = [5] := by decide
example : encodeVarint 130 = [0x81, 0x02] := by decide
example : read_varint (encodeVarint 300) 0 = (some 300, 2) := by decide
example : read_varint (encodeVarint (2 ^ 60 + 77)) 0 = (some (2 ^ 60 + 77), 9) := by decide
example : decodeColumnsClaimC2 [0, 1, 3, 4, 2, 0, 42] 5 [4, 2] = [none, none] := by decide
example : decodeColumns [0, 1, 3, 4, 2, 0, 42] 5 [4, 2] =
    [none, some (Value.int 42)] := by decide
example : parse_cell_claimC1 [3, 1, 2, 1, 1, 5] 0 =
    some ⟨1, [some (Value.int 5), none]⟩ := by decide

/-- Reading an index inside the left part of an appended list. -/
theorem getD_append_left :
    ∀ (l l2 : List Nat) (k : Nat), k < l.length → (l ++ l2).getD k 0 = l.getD k 0
  | _ :: _, _, 0, _ => rfl
  | _ :: t, l2, k + 1, h => getD_append_left t l2 k (by simpa using h)
  | [], _, _, h => absurd h (by simp)

/-- Reading an index just past the left part of an appended list. -/
theorem getD_append_len :
    ∀ (l l2 : List Nat), (l ++ l2).getD l.length 0 = l2.getD 0 0
  | [], _ => rfl
  | _ :: t, l2 => getD_append_len t l2

/-- Disjoint bitwise or is addition: the shifted accumulator has zero
low bits, so the or in the varint loop is plain addition. -/
theorem or_shiftLeft_small (a x k : Nat) (hx : x < 2 ^ k) :
    (a <<< k) ||| x = a * 2 ^ k + x := by
  rw [Nat.shiftLeft_eq, Nat.mul_comm a (2 ^ k), ← Nat.mul_add_lt_is_or hx a,
    Nat.mul_comm (2 ^ k) a]

/-- Masking with 0x7f is reduction mod 128. -/
theorem and_127_eq (b : Nat) : b &&& 127 = b % 128 := by
  have h := Nat.and_pow_two_sub_one_eq_mod b 7
  norm_num at h
  exact h

/-- The continuation test: bit 7 as a mod-div expression. -/
theorem and_128_eq (b : Nat) : b &&& 128 = if b / 128 % 2 = 1 then 128 else 0 := by
  have h : b &&& 128 = b &&& 2 ^ 7 := by norm_num
  rw [h, Nat.and_two_pow, Nat.testBit_to_div_mod]
  norm_num
  by_cases hb : b / 128 % 2 = 1 <;> simp [hb]

/-- A byte below 128 fails the continuation test. -/
theorem and_128_of_lt {b : Nat} (hb : b < 128) : b &&& 128 = 0 := by
  rw [and_128_eq]
  have : b / 128 = 0 := Nat.div_eq_of_lt hb
  simp [this]

/-- A byte of the form x + 128 with x < 128 passes the continuation
test. -/
theorem and_128_of_cont {x : Nat} (hx : x < 128) : (x + 128) &&& 128 ≠ 0 := by
  rw [and_128_eq]
  have : (x + 128) / 128 = 1 := by omega
  simp [this]

/-- Peeling the most significant 7-bit group off a mod-power-of-128. -/
theorem mod_pow7_succ (v k : Nat) :
    v % 2 ^ (7 * (k + 1)) = v / 2 ^ (7 * k) % 128 * 2 ^ (7 * k) + v % 2 ^ (7 * k) := by
  have h1 : 2 ^ (7 * (k + 1)) = 2 ^ (7 * k) * 128 := by
    rw [show 7 * (k + 1) = 7 * k + 7 by ring, pow_add]
    norm_num
  rw [h1, Nat.mod_mul]
  ring

/-- Decoding a minimal 7-bit-group segment: running the varint loop over
the n bytes of encode7 n v accumulates the low 7n bits of v onto the
accumulator and stops right after the segment. -/
theorem rvGo_encode7 (data : List Nat) (offset v : Nat) :
    ∀ n, 1 ≤ n → ∀ i acc fuel, i + n ≤ 8 → n ≤ fuel →
    (∀ k, k < n → offset + i + k < data.length ∧
      byteAt data (offset + i + k) = (encode7 n v).getD k 0) →
    rvGo data offset i acc fuel =
      (some (acc * 2 ^ (7 * n) + v % 2 ^ (7 * n)), offset + i + n) := by
  intro n
  induction n with
  | zero => intro h1; omega
  | succ m ih =>
    intro _ i acc fuel h8 hfuel hk
    obtain ⟨f, rfl⟩ : ∃ f, fuel = f + 1 := ⟨fuel - 1, by omega⟩
    obtain ⟨hk0lt, hk0⟩ := hk 0 (by omega)
    rw [Nat.add_zero] at hk0lt hk0
    cases m with
    | zero =>
      have hb : byteAt data (offset + i) = v % 128 := by simpa [encode7] using hk0
      have hlt : v % 128 < 128 := Nat.mod_lt _ (by norm_num)
      simp only [rvGo]
      rw [if_neg (by omega), if_neg (by omega), hb, if_pos (and_128_of_lt hlt),
        and_127_eq, Nat.mod_mod_of_dvd v (dvd_refl 128),
        or_shiftLeft_small acc (v % 128) 7 (by norm_num [hlt])]
      norm_num
    | succ m2 =>
      have hx : v / 2 ^ (7 * (m2 + 1)) % 128 < 128 := Nat.mod_lt _ (by norm_num)
      have hb : byteAt data (offset + i) = v / 2 ^ (7 * (m2 + 1)) % 128 + 128 := by
        simpa [encode7] using hk0
      have hstep : rvGo data offset i acc (f + 1) =
          rvGo data offset (i + 1) (acc * 128 + v / 2 ^ (7 * (m2 + 1)) % 128) f := by
        simp only [rvGo]
        rw [if_neg (by omega), if_neg (by omega), hb, if_neg (and_128_of_cont hx)]
        have h127 : (v / 2 ^ (7 * (m2 + 1)) % 128 + 128) &&& 127 =
            v / 2 ^ (7 * (m2 + 1)) % 128 := by
          rw [and_127_eq]
          omega
        rw [h127, or_shiftLeft_small acc (v / 2 ^ (7 * (m2 + 1)) % 128) 7 (by norm_num [hx])]
        norm_num
      have hih := ih (by omega) (i + 1) (acc * 128 + v / 2 ^ (7 * (m2 + 1)) % 128) f
        (by omega) (by omega) (by
          intro k hkk
          obtain ⟨h1, h2⟩ := hk (k + 1) (by omega)
          constructor
          · omega
          · rw [show offset + (i + 1) + k = offset + i + (k + 1) by ring]
            rw [h2]
            simp [encode7])
      rw [hstep, hih]
      have hpow : 2 ^ (7 * (m2 + 1 + 1)) = 2 ^ (7 * (m2 + 1)) * 128 := by
        rw [show 7 * (m2 + 1 + 1) = 7 * (m2 + 1) + 7 by ring, pow_add]
        norm_num
      simp only [Prod.mk.injEq, Option.some.injEq]
      constructor
      · rw [mod_pow7_succ v (m2 + 1), hpow]
        ring
      · omega

/-- Decoding a run of n continuation bytes: the loop neither stops nor
fails inside the run, and accumulates the low 7n bits of w. -/
theorem rvGo_cont (data : List Nat) (offset w : Nat) :
    ∀ n i acc fuel, i + n ≤ 8 → n ≤ fuel →
    (∀ k, k < n → offset + i + k < data.length ∧
      byteAt data (offset + i + k) = (contBytes n w).getD k 0) →
    rvGo data offset i acc fuel =
      rvGo data offset (i + n) (acc * 2 ^ (7 * n) + w % 2 ^ (7 * n)) (fuel - n) := by
  intro n
  induction n with
  | zero =>
    intro i acc fuel _ _ _
    norm_num [Nat.mod_one]
  | succ m ih =>
    intro i acc fuel h8 hfuel hk
    obtain ⟨f, rfl⟩ : ∃ f, fuel = f + 1 := ⟨fuel - 1, by omega⟩
    obtain ⟨hk0lt, hk0⟩ := hk 0 (by omega)
    rw [Nat.add_zero] at hk0lt hk0
    have hx : w / 2 ^ (7 * m) % 128 < 128 := Nat.mod_lt _ (by norm_num)
    have hb : byteAt data (offset + i) = w / 2 ^ (7 * m) % 128 + 128 := by
      simpa [contBytes] using hk0
    have hstep : rvGo data offset i acc (f + 1) =
        rvGo data offset (i + 1) (acc * 128 + w / 2 ^ (7 * m) % 128) f := by
      simp only [rvGo]
      rw [if_neg (by omega), if_neg (by omega), hb, if_neg (and_128_of_cont hx)]
      have h127 : (w / 2 ^ (7 * m) % 128 + 128) &&& 127 = w / 2 ^ (7 * m) % 128 := by
        rw [and_127_eq]
        omega
      rw [h127, or_shiftLeft_small acc (w / 2 ^ (7 * m) % 128) 7 (by norm_num [hx])]
      norm_num
    have hih := ih (i + 1) (acc * 128 + w / 2 ^ (7 * m) % 128) f (by omega) (by omega) (by
      intro k hkk
      obtain ⟨h1, h2⟩ := hk (k + 1) (by omega)
      constructor
      · omega
      · rw [show offset + (i + 1) + k = offset + i + (k + 1) by ring]
        rw [h2]
        simp [contBytes])
    rw [hstep, hih]
    have hpow : 2 ^ (7 * (m + 1)) = 2 ^ (7 * m) * 128 := by
      rw [show 7 * (m + 1) = 7 * m + 7 by ring, pow_add]
      norm_num
    have hval : acc * 128 * 2 ^ (7 * m) + w / 2 ^ (7 * m) % 128 * 2 ^ (7 * m) +
        w % 2 ^ (7 * m) = acc * 2 ^ (7 * (m + 1)) + w % 2 ^ (7 * (m + 1)) := by
      rw [mod_pow7_succ w m, hpow]
      ring
    rw [show (acc * 128 + w / 2 ^ (7 * m) % 128) * 2 ^ (7 * m) + w % 2 ^ (7 * m) =
        acc * 128 * 2 ^ (7 * m) + w / 2 ^ (7 * m) % 128 * 2 ^ (7 * m) + w % 2 ^ (7 * m)
        by ring, hval, show i + 1 + m = i + (m + 1) by ring,
      show f + 1 - (m + 1) = f - m by omega]

/-- encode7 produces exactly n bytes. -/
theorem encode7_length : ∀ n v, (encode7 n v).length = n
  | 0, _ => rfl
  | 1, _ => rfl
  | n + 2, v => by simp [encode7, encode7_length (n + 1) v]

/-- contBytes produces exactly n bytes. -/
theorem contBytes_length : ∀ n w, (contBytes n w).length = n
  | 0, _ => rfl
  | n + 1, w => by simp [contBytes, contBytes_length n w]

/-- The byte count chosen by the encoder is between 1 and 9, is minimal
for values below 2^56, and is 9 exactly for values of 57 bits or more. -/
theorem varintLen_facts (v : Nat) :
    1 ≤ varintLen v ∧ varintLen v ≤ 9 ∧
    (v < 2 ^ 56 → varintLen v ≤ 8 ∧ v < 2 ^ (7 * varintLen v)) ∧
    (2 ^ 56 ≤ v → varintLen v = 9) := by
  unfold varintLen
  split_ifs <;> norm_num <;> omega

/-- Claim C5: for every unsigned 64-bit value v, encoding v with the
varint scheme (7 data bits per byte with a continuation bit for bytes
1 to 8, all 8 bits in byte 9) and then decoding with read_varint from
offset 0 recovers exactly v, with a consumed width between 1 and 9
bytes consistent with that rule (minimal 7-bit-group count below 2^56,
the 9-byte form exactly for larger values). -/
theorem varint_roundtrip (v : Nat) (hv : v < 2 ^ 64) :
    read_varint (encodeVarint v) 0 = (some v, (encodeVarint v).length) ∧
    1 ≤ (encodeVarint v).length ∧ (encodeVarint v).length ≤ 9 ∧
    ((encodeVarint v).length ≤ 8 → v < 2 ^ (7 * (encodeVarint v).length)) ∧
    ((encodeVarint v).length = 9 → 2 ^ 56 ≤ v) := by
  obtain ⟨hL1, hL9, hsp, hbig⟩ := varintLen_facts v
  by_cases hsmall : v < 2 ^ 56
  · obtain ⟨hle8, hlt⟩ := hsp hsmall
    have henc : encodeVarint v = encode7 (varintLen v) v := if_pos hsmall
    have hlen : (encodeVarint v).length = varintLen v := by
      rw [henc, encode7_length]
    have hmain := rvGo_encode7 (encode7 (varintLen v) v) 0 v (varintLen v) hL1 0 0 9
      (by omega) (by omega) (by
        intro k hkk
        constructor
        · rw [encode7_length]
          omega
        · rw [show 0 + 0 + k = k by omega]
          rfl)
    refine ⟨?_, by omega, by omega, ?_, ?_⟩
    · rw [read_varint, henc, hmain, Nat.zero_mul, Nat.zero_add,
        Nat.mod_eq_of_lt hlt, encode7_length]
      norm_num
    · intro _
      rw [hlen]
      exact hlt
    · intro h9
      rw [hlen] at h9
      omega
  · have henc : encodeVarint v = contBytes 8 (v / 256) ++ [v % 256] := if_neg hsmall
    have hclen : (contBytes 8 (v / 256)).length = 8 := contBytes_length 8 (v / 256)
    have hlen : (encodeVarint v).length = 9 := by
      rw [henc, List.length_append, hclen]
      rfl
    have hw : v / 256 < 2 ^ 56 := by
      rw [Nat.div_lt_iff_lt_mul (by norm_num : (0 : Nat) < 256)]
      calc v < 2 ^ 64 := hv
        _ = 2 ^ 56 * 256 := by norm_num
    have hcont := rvGo_cont (encodeVarint v) 0 (v / 256) 8 0 0 9 (by omega) (by omega) (by
      intro k hkk
      constructor
      · rw [hlen]
        omega
      · rw [show 0 + 0 + k = k by omega, henc]
        show (contBytes 8 (v / 256) ++ [v % 256]).getD k 0 = (contBytes 8 (v / 256)).getD k 0
        exact getD_append_left _ _ k (by rw [hclen]; omega))
    have hlast : byteAt (encodeVarint v) 8 = v % 256 := by
      have h := getD_append_len (contBytes 8 (v / 256)) [v % 256]
      rw [hclen] at h
      rw [henc]
      show (contBytes 8 (v / 256) ++ [v % 256]).getD 8 0 = v % 256
      rw [h]
      rfl
    have hval : ((v / 256) <<< 8) ||| (v % 256) = v := by
      rw [or_shiftLeft_small (v / 256) (v % 256) 8 (by norm_num [Nat.mod_lt v])]
      omega
    refine ⟨?_, by omega, by omega, by omega, fun _ => by omega⟩
    rw [read_varint, hcont, Nat.zero_mul, Nat.zero_add, Nat.mod_eq_of_lt hw, hlen]
    simp only [rvGo, Nat.zero_add]
    rw [if_neg (by rw [hlen]; norm_num)]
    simp [hlast, hval]

/-- Witness for C5 at v = 300. -/
theorem varint_roundtrip_witness :
    read_varint (encodeVarint 300) 0 = (some 300, (encodeVarint 300).length) ∧
    1 ≤ (encodeVarint 300).length ∧ (encodeVarint 300).length ≤ 9 ∧
    ((encodeVarint 300).length ≤ 8 → 300 < 2 ^ (7 * (encodeVarint 300).length)) ∧
    ((encodeVarint 300).length = 9 → 2 ^ 56 ≤ 300) :=
  varint_roundtrip 300 (by norm_num)

/-- Every branch of decode_serial_type either succeeds or returns
exactly the pair (none, offset). -/
theorem decode_some_or_fail (st : Nat) (data : List Nat) (offset : Nat) :
    (decode_serial_type st data offset).1.isSome ∨
      decode_serial_type st data offset = (none, offset) := by
  by_cases h12 : 12 ≤ st
  · have e0 : st ≠ 0 := by omega
    have e1 : st ≠ 1 := by omega
    have e2 : st ≠ 2 := by omega
    have e3 : st ≠ 3 := by omega
    have e4 : st ≠ 4 := by omega
    have e5 : st ≠ 5 := by omega
    have e6 : st ≠ 6 := by omega
    have e7 : st ≠ 7 := by omega
    have e8 : st ≠ 8 := by omega
    have e9 : st ≠ 9 := by omega
    by_cases hpar : st % 2 = 0
    · simp only [decode_serial_type, if_neg e0, if_neg e1, if_neg e2, if_neg e3,
        if_neg e4, if_neg e5, if_neg e6, if_neg e7, if_neg e8, if_neg e9,
        if_pos (show 12 ≤ st ∧ st % 2 = 0 from ⟨h12, hpar⟩)]
      split_ifs <;> simp
    · have hblob : ¬(12 ≤ st ∧ st % 2 = 0) := by omega
      have htext : 13 ≤ st ∧ st % 2 = 1 := by omega
      simp only [decode_serial_type, if_neg e0, if_neg e1, if_neg e2, if_neg e3,
        if_neg e4, if_neg e5, if_neg e6, if_neg e7, if_neg e8, if_neg e9,
        if_neg hblob, if_pos htext]
      split_ifs <;> simp
  · interval_cases st <;> (simp only [decode_serial_type]; norm_num) <;>
      (try split_ifs) <;> simp_all

/-- Every failing branch of decode_serial_type returns the pair
(none, offset): a failed column decode consumes nothing. -/
theorem decode_serial_type_none_snd (st : Nat) (data : List Nat) (offset : Nat)
    (h : (decode_serial_type st data offset).1 = none) :
    decode_serial_type st data offset = (none, offset) := by
  rcases decode_some_or_fail st data offset with hs | he
  · rw [h] at hs
    simp at hs
  · exact he

/-- Claim C6: parse_cell returns none exactly when the row_id varint or
the header_size varint cannot be decoded at the position where it is
read; in every other case, including all serial-type-read and
column-decode failures, it returns a cell with a row id and a column
list. -/
theorem parse_cell_none_iff (data : List Nat) (offset : Nat) :
    parse_cell data offset = none ↔
      ((read_varint data ((read_varint data offset).2)).1 = none ∨
        (read_varint data ((read_varint data ((read_varint data offset).2)).2)).1 = none) := by
  rcases h0 : read_varint data offset with ⟨r0, p1⟩
  rcases r0 with _ | ps
  · have hp1 : p1 = offset := read_varint_none_snd data offset h0
    subst hp1
    simp [parse_cell, h0]
  · rcases h1 : read_varint data p1 with ⟨r1, p2⟩
    rcases r1 with _ | rid
    · simp [parse_cell, h0, h1]
    · rcases h2 : read_varint data p2 with ⟨r2, p3⟩
      rcases r2 with _ | hs
      · simp [parse_cell, h0, h1, h2]
      · simp [parse_cell, h0, h1, h2]

/-- Truncated varint: if every in-bounds byte from offset on is a
continuation byte and the buffer ends within 8 such bytes, the loop
reports failure with the original offset. -/
theorem rvGo_truncated (data : List Nat) (offset : Nat)
    (hshort : data.length < offset + 9)
    (hcont : ∀ k, offset + k < data.length → byteAt data (offset + k) &&& 128 ≠ 0) :
    ∀ fuel i acc, i + fuel = 9 → i ≤ 8 → rvGo data offset i acc fuel = (none, offset) := by
  intro fuel
  induction fuel with
  | zero =>
    intro i acc h9 h8
    omega
  | succ f ih =>
    intro i acc h9 h8
    simp only [rvGo]
    by_cases hb : data.length ≤ offset + i
    · rw [if_pos hb]
    · rw [if_neg hb, if_neg (show i ≠ 8 by omega), if_neg (hcont i (by omega))]
      exact ih (i + 1) _ (by omega) (by omega)

/-- Claim C7: if the buffer ends before the varint decoder finds a
terminating byte (a byte with high bit 0 among the first 8, or a ninth
byte), read_varint returns none together with next_offset equal to the
original offset, signalling no partial consumption. -/
theorem read_varint_truncated (data : List Nat) (offset : Nat)
    (hshort : data.length < offset + 9)
    (hcont : ∀ k, offset + k < data.length → byteAt data (offset + k) &&& 128 ≠ 0) :
    read_varint data offset = (none, offset) :=
  rvGo_truncated data offset hshort hcont 9 0 0 rfl (by omega)

/-- Witness for C7 on the two-byte buffer [128, 129], both bytes
continuation bytes. -/
theorem read_varint_truncated_witness : read_varint [128, 129] 0 = (none, 0) :=
  read_varint_truncated [128, 129] 0 (by norm_num) (by
    intro k hk
    simp at hk
    interval_cases k <;> decide)

/-- Claim C8: every fixed-width serial type (codes 1 to 7) whose
declared width runs past the end of the buffer decodes to an absent
value with next_offset equal to the original offset. -/
theorem decode_fixed_truncated (st : Nat) (data : List Nat) (offset : Nat)
    (h1 : 1 ≤ st) (h7 : st ≤ 7) (hshort : data.length < offset + fixedWidth st) :
    decode_serial_type st data offset = (none, offset) := by
  interval_cases st <;> simp only [fixedWidth] at hshort <;>
    simp [decode_serial_type, hshort]

/-- Witness for C8: serial type 2 (2-byte integer) on a 1-byte buffer. -/
theorem decode_fixed_truncated_witness : decode_serial_type 2 [5] 0 = (none, 0) :=
  decode_fixed_truncated 2 [5] 0 (by norm_num) (by norm_num) (by decide)

/-- Claim C10: serial type 0 (NULL) decodes to exactly the pair
(none, offset), and every failing decode of any serial type returns that
same pair, so at this interface a stored NULL is indistinguishable from
a column whose decode failed. -/
theorem decode_null_indistinguishable (data : List Nat) (offset : Nat) :
    decode_serial_type 0 data offset = (none, offset) ∧
    (∀ st, (decode_serial_type st data offset).1 = none →
      decode_serial_type st data offset = decode_serial_type 0 data offset) := by
  constructor
  · simp [decode_serial_type]
  · intro st h
    rw [decode_serial_type_none_snd st data offset h]
    simp [decode_serial_type]

/-- Witness for C10: serial type 1 on an empty buffer fails and is
indistinguishable from NULL. -/
theorem decode_null_indistinguishable_witness :
    decode_serial_type 0 [] 0 = (none, 0) ∧
    decode_serial_type 1 [] 0 = decode_serial_type 0 [] 0 :=
  ⟨(decode_null_indistinguishable [] 0).1,
    (decode_null_indistinguishable [] 0).2 1 (by decide)⟩

/-- Disjoint or is addition, multiplication form. -/
theorem or_mul_pow (a x k : Nat) (hx : x < 2 ^ k) : (a * 2 ^ k) ||| x = a * 2 ^ k + x := by
  rw [Nat.mul_comm a (2 ^ k), ← Nat.mul_add_lt_is_or hx a, Nat.mul_comm (2 ^ k) a]

/-- A list slice seen one in-bounds element at a time. -/
theorem drop_cons_getD :
    ∀ (l : List Nat) (i : Nat), i < l.length → l.drop i = l.getD i 0 :: l.drop (i + 1)
  | _ :: _, 0, _ => rfl
  | _ :: t, i + 1, h => by simpa using drop_cons_getD t i (by simpa using h)

/-- Peeling the first element off a Python slice. -/
theorem pySlice_cons (data : List Nat) (offset j : Nat) (h : offset < data.length)
    (hj : offset < j) :
    pySlice data offset j = byteAt data offset :: pySlice data (offset + 1) j := by
  show (data.drop offset).take (j - offset) =
    byteAt data offset :: (data.drop (offset + 1)).take (j - (offset + 1))
  rw [drop_cons_getD data offset h,
    show j - offset = (j - (offset + 1)) + 1 by omega, List.take_succ_cons]
  rfl

/-- An in-bounds Python slice has its nominal length. -/
theorem pySlice_length (data : List Nat) (i n : Nat) (h : i + n ≤ data.length) :
    (pySlice data i (i + n)).length = n := by
  simp [pySlice]
  omega

/-- In-bounds byte access is list indexing. -/
theorem byteAt_eq_getElem (data : List Nat) (i : Nat) (h : i < data.length) :
    byteAt data i = data[i] := by
  simp [byteAt, List.getD_eq_getElem?_getD, List.getElem?_eq_getElem h]

/-- In a buffer of bytes, every in-bounds read is below 256. -/
theorem byteAt_lt (data : List Nat) (hb : ∀ b ∈ data, b < 256) (i : Nat)
    (h : i < data.length) : byteAt data i < 256 := by
  rw [byteAt_eq_getElem data i h]
  exact hb _ (List.getElem_mem h)

/-- Over bytes, the or-accumulating fold of the source equals the plain
big-endian fold. -/
theorem foldl_or_eq_mul :
    ∀ (l : List Nat), (∀ b ∈ l, b < 256) → ∀ acc : Nat,
      l.foldl (fun a b => (a <<< 8) ||| b) acc = l.foldl (fun a b => a * 256 + b) acc := by
  intro l
  induction l with
  | nil => intro _ _; rfl
  | cons b t ih =>
    intro hb acc
    simp only [List.foldl_cons]
    rw [or_shiftLeft_small acc b 8 (by have := hb b (by simp); norm_num [this]),
      ih (fun x hx => hb x (by simp [hx]))]
    norm_num

/-- Bound on the big-endian fold of a byte list. -/
theorem foldl_be_lt :
    ∀ (l : List Nat), (∀ b ∈ l, b < 256) → ∀ acc : Nat,
      l.foldl (fun a b => a * 256 + b) acc < (acc + 1) * 256 ^ l.length := by
  intro l
  induction l with
  | nil =>
    intro _ acc
    simp
  | cons b t ih =>
    intro hb acc
    simp only [List.foldl_cons, List.length_cons]
    calc t.foldl (fun a b => a * 256 + b) (acc * 256 + b)
        < (acc * 256 + b + 1) * 256 ^ t.length := ih (fun x hx => hb x (by simp [hx])) _
      _ ≤ ((acc + 1) * 256) * 256 ^ t.length := by
          have hble : b < 256 := hb b (by simp)
          exact Nat.mul_le_mul_right _ (by omega)
      _ = (acc + 1) * 256 ^ (t.length + 1) := by ring

/-- An in-bounds big-endian field of n bytes is below 2^(8n). -/
theorem beVal_lt (data : List Nat) (offset n : Nat) (hb : ∀ b ∈ data, b < 256)
    (h : offset + n ≤ data.length) : beVal data offset n < 2 ^ (8 * n) := by
  have hmem : ∀ b ∈ pySlice data offset (offset + n), b < 256 := by
    intro b hbm
    have hbm2 : b ∈ (data.drop offset).take (offset + n - offset) := hbm
    exact hb b (List.mem_of_mem_drop (List.mem_of_mem_take hbm2))
  have hlt := foldl_be_lt (pySlice data offset (offset + n)) hmem 0
  rw [pySlice_length data offset n h] at hlt
  rw [show (2 : Nat) ^ (8 * n) = 256 ^ n by rw [pow_mul]; norm_num]
  simpa [beVal] using hlt

/-- Bit 23 test on a 24-bit value, as an inequality. -/
theorem and_bit23 (v : Nat) (hv : v < 2 ^ 24) : (v &&& 8388608 ≠ 0) ↔ 2 ^ 23 ≤ v := by
  have h : v &&& 8388608 = v &&& 2 ^ 23 := by norm_num
  rw [h, Nat.and_two_pow, Nat.testBit_to_div_mod]
  norm_num at hv ⊢
  by_cases hd : v / 8388608 % 2 = 1 <;> simp [hd] <;> omega

/-- Bit 47 test on a 48-bit value, as an inequality. -/
theorem and_bit47 (v : Nat) (hv : v < 2 ^ 48) :
    (v &&& 140737488355328 ≠ 0) ↔ 2 ^ 47 ≤ v := by
  have h : v &&& 140737488355328 = v &&& 2 ^ 47 := by norm_num
  rw [h, Nat.and_two_pow, Nat.testBit_to_div_mod]
  norm_num at hv ⊢
  by_cases hd : v / 140737488355328 % 2 = 1 <;> simp [hd] <;> omega

/-- The shift-based 24-bit read of the source equals the reference
big-endian reading. -/
theorem be3_eq_beVal (data : List Nat) (offset : Nat) (hb : ∀ b ∈ data, b < 256)
    (h : offset + 3 ≤ data.length) : be3 data offset = beVal data offset 3 := by
  have b0 := byteAt_lt data hb offset (by omega)
  have b1 := byteAt_lt data hb (offset + 1) (by omega)
  have b2 := byteAt_lt data hb (offset + 2) (by omega)
  have hs : pySlice data offset (offset + 3) =
      [byteAt data offset, byteAt data (offset + 1), byteAt data (offset + 2)] := by
    rw [pySlice_cons data offset _ (by omega) (by omega),
      pySlice_cons data (offset + 1) _ (by omega) (by omega),
      pySlice_cons data (offset + 2) _ (by omega) (by omega)]
    simp [pySlice]
  unfold beVal be3
  rw [hs]
  simp only [List.foldl_cons, List.foldl_nil]
  rw [Nat.shiftLeft_eq, Nat.shiftLeft_eq,
    or_mul_pow (byteAt data offset) (byteAt data (offset + 1) * 2 ^ 8) 16 (by omega),
    show byteAt data offset * 2 ^ 16 + byteAt data (offset + 1) * 2 ^ 8 =
      (byteAt data offset * 2 ^ 8 + byteAt data (offset + 1)) * 2 ^ 8 by ring,
    or_mul_pow _ (byteAt data (offset + 2)) 8 (by omega)]
  norm_num
  try ring

/-- The or-fold 48-bit read of the source equals the reference
big-endian reading. -/
theorem beBytes6_eq_beVal (data : List Nat) (offset : Nat) (hb : ∀ b ∈ data, b < 256) :
    beBytes data offset 6 = beVal data offset 6 := by
  unfold beBytes beVal
  refine foldl_or_eq_mul (pySlice data offset (offset + 6)) ?_ 0
  intro b hbm
  have hbm2 : b ∈ (data.drop offset).take (offset + 6 - offset) := hbm
  exact hb b (List.mem_of_mem_drop (List.mem_of_mem_take hbm2))

/-- Claim C9: for serial types 3 and 5, when enough bytes are
available, the decoder returns the big-endian two's-complement signed
interpretation of the 3- or 6-byte field: a field with the top bit set
decodes to bigEndianValue - 2^24 (resp. - 2^48), any other field to
bigEndianValue. -/
theorem decode_int24_int48_signed (data : List Nat) (offset : Nat)
    (hb : ∀ b ∈ data, b < 256) :
    (offset + 3 ≤ data.length →
      decode_serial_type 3 data offset =
        (some (Value.int (if 2 ^ 23 ≤ beVal data offset 3 then
          (beVal data offset 3 : Int) - 2 ^ 24 else (beVal data offset 3 : Int))),
         offset + 3)) ∧
    (offset + 6 ≤ data.length →
      decode_serial_type 5 data offset =
        (some (Value.int (if 2 ^ 47 ≤ beVal data offset 6 then
          (beVal data offset 6 : Int) - 2 ^ 48 else (beVal data offset 6 : Int))),
         offset + 6)) := by
  constructor
  · intro h3
    have hval : be3 data offset = beVal data offset 3 := be3_eq_beVal data offset hb h3
    have hlt : beVal data offset 3 < 2 ^ 24 := beVal_lt data offset 3 hb h3
    have hiff := and_bit23 (beVal data offset 3) hlt
    norm_num at hiff
    simp only [decode_serial_type]
    norm_num
    rw [if_neg (show ¬data.length < offset + 3 by omega), hval]
    norm_num
    by_cases h0 : beVal data offset 3 &&& 8388608 = 0
    · rw [if_pos h0, if_neg (fun hle => hiff.mpr hle h0)]
    · rw [if_neg h0, if_pos (hiff.mp h0)]
  · intro h6
    have hval : beBytes data offset 6 = beVal data offset 6 := beBytes6_eq_beVal data offset hb
    have hlt : beVal data offset 6 < 2 ^ 48 := beVal_lt data offset 6 hb h6
    have hiff := and_bit47 (beVal data offset 6) hlt
    norm_num at hiff
    simp only [decode_serial_type]
    norm_num
    rw [if_neg (show ¬data.length < offset + 6 by omega), hval]
    norm_num
    by_cases h0 : beVal data offset 6 &&& 140737488355328 = 0
    · rw [if_pos h0, if_neg (fun hle => hiff.mpr hle h0)]
    · rw [if_neg h0, if_pos (hiff.mp h0)]

/-- Witness for C9 on the buffer [255, 0, 0, 255, 255, 255]: both
fields have their top bit set and decode to negative values. -/
theorem decode_int24_int48_signed_witness :
    decode_serial_type 3 [255, 0, 0, 255, 255, 255] 0 = (some (Value.int (-65536)), 3) ∧
    decode_serial_type 5 [255, 0, 0, 255, 255, 255] 0 =
      (some (Value.int (-1099494850561)), 6) := by
  have h := decode_int24_int48_signed [255, 0, 0, 255, 255, 255] 0 (by decide)
  constructor
  · rw [h.1 (by decide)]
    norm_num
    decide
  · rw [h.2 (by decide)]
    norm_num
    decide

/-- Counterexample to claim C1 as stated: on this concrete cell the
source computes header_end from the offset where the header_size varint
begins, not from the offset immediately after it; the claim's reading
(parse_cell_claimC1) walks one serial type too far and yields a
different cell. -/
theorem parse_cell_headerEnd_counterexample :
    parse_cell [3, 1, 2, 1, 1, 5] 0 = some ⟨1, [some (Value.int 1)]⟩ ∧
    parse_cell_claimC1 [3, 1, 2, 1, 1, 5] 0 = some ⟨1, [some (Value.int 5), none]⟩ ∧
    parse_cell [3, 1, 2, 1, 1, 5] 0 ≠ parse_cell_claimC1 [3, 1, 2, 1, 1, 5] 0 :=
  ⟨by decide, by decide, by decide⟩

/-- Claim C1 (amended): after decoding the payload_size, row_id and
header_size varints, the end of the record header is computed as
header_end = pos2 + header_size where pos2 is the offset at which the
header_size varint begins (immediately after the row_id varint), and
serial-type varints are read from header_start (the offset after the
header_size varint) until the running offset reaches or exceeds that
header_end. -/
theorem parse_cell_headerEnd (data : List Nat) (offset ps pos rid pos2 hs hstart : Nat)
    (h0 : read_varint data offset = (some ps, pos))
    (h1 : read_varint data pos = (some rid, pos2))
    (h2 : read_varint data pos2 = (some hs, hstart)) :
    parse_cell data offset =
      some ⟨rid, decodeColumns data (pos2 + hs) (readSerialTypes data (pos2 + hs) hstart)⟩ := by
  simp [parse_cell, h0, h1, h2]

/-- Witness for the amended C1 on the counterexample cell: header_end
is 2 + 2 = 4, the offset after the row_id varint plus header_size. -/
theorem parse_cell_headerEnd_witness :
    parse_cell [3, 1, 2, 1, 1, 5] 0 =
      some ⟨1, decodeColumns [3, 1, 2, 1, 1, 5] 4 (readSerialTypes [3, 1, 2, 1, 1, 5] 4 3)⟩ :=
  parse_cell_headerEnd [3, 1, 2, 1, 1, 5] 0 3 1 1 2 2 3 (by decide) (by decide) (by decide)

/-- Counterexample to claim C2 as stated: a failed column of declared
width 4 followed by a decodable 2-byte column. The source decodes the
second column at the unchanged offset (value 42); the claim's
advancing loop (decodeColumnsClaimC2) would run past the buffer and
produce none for it. -/
theorem decodeColumns_advance_counterexample :
    parse_cell [0, 1, 3, 4, 2, 0, 42] 0 = some ⟨1, [none, some (Value.int 42)]⟩ ∧
    decodeColumns [0, 1, 3, 4, 2, 0, 42] 5 [4, 2] = [none, some (Value.int 42)] ∧
    decodeColumnsClaimC2 [0, 1, 3, 4, 2, 0, 42] 5 [4, 2] = [none, none] ∧
    decodeColumns [0, 1, 3, 4, 2, 0, 42] 5 [4, 2] ≠
      decodeColumnsClaimC2 [0, 1, 3, 4, 2, 0, 42] 5 [4, 2] :=
  ⟨by decide, by decide, by decide, by decide⟩

/-- Claim C2 (amended): when decoding the value of one column fails,
that slot receives none and the loop continues over the remaining
serial types, with the body offset left unchanged (a failed decode
consumes nothing), so the next column is attempted at the same
offset. -/
theorem decodeColumns_fail_continues (data : List Nat) (offset st : Nat) (rest : List Nat)
    (hfail : (decode_serial_type st data offset).1 = none) :
    decodeColumns data offset (st :: rest) = none :: decodeColumns data offset rest := by
  have h := decode_serial_type_none_snd st data offset hfail
  simp [decodeColumns, h]

/-- Witness for the amended C2: serial type 1 fails on the empty
buffer, the integer-constant column after it is still decoded, at the
same offset. -/
theorem decodeColumns_fail_continues_witness :
    decodeColumns [] 0 [1, 8] = none :: decodeColumns [] 0 [8] :=
  decodeColumns_fail_continues [] 0 1 [8] (by decide)

/-- Claim C3 fails on the code: on the 6-byte buffer holding exactly
the magic prefix (a truncated database file), analyze_database reaches
the unguarded page-size read, struct.unpack over the empty slice
data[16:18], and raises struct.error instead of completing. -/
theorem analyze_database_raises :
    analyze_database [83, 81, 76, 105, 116, 101] = Except.error () := rfl

/-- Counterexample to claim C4 as stated: on a leaf-table page with
declared cell count 2 and two well-formed cells reachable through the
pointer array, the analyzer decodes exactly one cell, not 2: it runs
the Cell Parser only on the first pointer. -/
theorem analyze_two_cells_counterexample :
    (analyze_database syntheticPage).toOption.map (fun r => r.parsed_cells.length) = some 1 ∧
    (analyze_database syntheticPage).toOption.map (fun r => r.parsed_cells.length) ≠ some 2 :=
  ⟨by decide, by decide⟩

/-- Claim C4 (amended): on that page the analyzer classifies the page
as leaf-table, reports both cell pointers as valid, and drives the Cell
Parser over the first pointer only, decoding that cell with matching
row id and column values; the Cell Parser applied directly to each of
the two pointers decodes both cells with matching row ids and column
values. -/
theorem analyze_leaf_page_first_cell :
    analyze_database syntheticPage =
      Except.ok { headerPresent := false, page_size := none, header_offset := 0,
                  page_type := some 13, num_cells := some 2,
                  cell_pointers := [(16, true), (32, true)],
                  parsed_cells :=
                    [some ⟨1, [some (Value.int 42), some (Value.text [104, 105, 33])]⟩] } ∧
    parse_cell syntheticPage 16 =
      some ⟨1, [some (Value.int 42), some (Value.text [104, 105, 33])]⟩ ∧
    parse_cell syntheticPage 32 =
      some ⟨2, [some (Value.int 99), some (Value.text [97, 98, 99])]⟩ :=
  ⟨rfl, by decide, by decide⟩

example : read_varint [5] 0 = (some 5, 1) := by decide
example : read_varint [0x81, 0x02] 0 = (some 130, 2) := by decide
example : read_varint [0xff, 0xff, 0xff, 0xff, 0xff, 0xff, 0xff, 0xff, 0x01] 0 =
    (some 18446744073709551361, 9) := by decide
example : decode_serial_type 1 [0xff] 0 = (some (Value.int (-1)), 1) := by decide
example : parse_cell [3, 1, 2, 1, 1, 5] 0 = some ⟨1, [some (Value.int 1)]⟩ := by decide
example : analyze_database [83, 81, 76, 105, 116, 101] = Except.error () := rfl
example : syntheticPage.length = 41 := by decide
example : parse_cell syntheticPage 16 =
    some ⟨1, [some (Value.int 42), some (Value.text [104, 105, 33])]⟩ := by decide
example : parse_cell syntheticPage 32 =
    some ⟨2, [some (Value.int 99), some (Value.text [97, 98, 99])]⟩ := by decide
example : analyze_database syntheticPage =
    Except.ok { headerPresent := false, page_size := none, header_offset := 0,
                page_type := some 13, num_cells := some 2,
                cell_pointers := [(16, true), (32, true)],
                parsed_cells :=
                  [some ⟨1, [some (Value.int 42), some (Value.text [104, 105, 33])]⟩] } := rfl
